import Mathlib

/-!
Verification of the instrumented caching facade (repository: cache).

The development shallowly embeds the Go sources:
  * src/internal/adapters/redis.go : the redis-backed rate limiters
    (RateLimiter, CountRateLimiter) over an integer key-value store;
  * src/pkg/stats.go : the statsMap counter map and cache.hit / cache.miss;
  * the cache wrapper (Wrap, Get, Set, KeyStatistics, Statistics,
    AverageHitLatency) from the pkg package.

Go maps are modelled as association lists with at most one binding per
key; uint64 counters are modelled as Nat (no claim approaches the wrap
boundary); float64 division in AverageHitLatency is modelled as rational
division; redis TTLs are not modelled since no claim involves expiry.
Calls made to the external store by the wrapper are modelled by passing
the outcome of the store call (the returned data and whether the error
was non-nil) as explicit inputs, since the store is an external
collaborator.
-/

namespace Cacher

/-! ## Association lists standing for Go maps -/

/-- Lookup in an association list: the Go map read `m[k]`. -/
def alLookup {α : Type} : List (String × α) → String → Option α
  | [], _ => none
  | (a, b) :: t, k => if a = k then some b else alLookup t k

/-- Update or insert in an association list: the Go map write `m[k] = v`. -/
def alInsert {α : Type} : List (String × α) → String → α → List (String × α)
  | [], k, v => [(k, v)]
  | (a, b) :: t, k, v => if a = k then (k, v) :: t else (a, b) :: alInsert t k v

theorem alLookup_alInsert_self {α : Type} (l : List (String × α)) (k : String) (v : α) :
    alLookup (alInsert l k v) k = some v := by
  induction l with
  | nil => simp [alInsert, alLookup]
  | cons p t ih =>
    obtain ⟨a, b⟩ := p
    by_cases h : a = k
    · simp [alInsert, alLookup, h]
    · simp [alInsert, alLookup, h, ih]

theorem alLookup_alInsert_ne {α : Type} (l : List (String × α)) (k q : String) (v : α)
    (h : q ≠ k) : alLookup (alInsert l k v) q = alLookup l q := by
  induction l with
  | nil => simp [alInsert, alLookup, Ne.symm h]
  | cons p t ih =>
    obtain ⟨a, b⟩ := p
    by_cases hak : a = k
    · subst hak
      simp [alInsert, alLookup, Ne.symm h]
    · simp [alInsert, alLookup, hak, ih]

/-! ## The redis integer-counter store used by the rate limiters

State of the counters manipulated through SetNX / Decr / DecrBy / Get in
src/internal/adapters/redis.go. Values are the integer contents of the
redis strings (the Go code converts with strconv.Atoi and int64). -/

/-- Counter contents of the store: key to integer value. -/
abbrev RStore := List (String × Int)

/-- SetNX: set the key only if it does not already exist (redis.go SetNX). -/
def rsSetNX (st : RStore) (k : String) (v : Int) : RStore :=
  match alLookup st k with
  | some _ => st
  | none => alInsert st k v

/-- Decr: decrement by one, a missing key counting as zero, and return the
new value (redis.go Decr). -/
def rsDecr (st : RStore) (k : String) : Int × RStore :=
  ((alLookup st k).getD 0 - 1, alInsert st k ((alLookup st k).getD 0 - 1))

/-- DecrBy: decrement by a given amount, a missing key counting as zero,
and return the new value (redis.go DecrBy). -/
def rsDecrBy (st : RStore) (k : String) (d : Int) : RStore :=
  alInsert st k ((alLookup st k).getD 0 - d)

/-- RateLimiter (redis.go lines 108-122), the FixedWindowDecrement of the
spec: pipeline SetNX of the initial value, then Decr, then read the key
back and return its value. A failed read-back returns 0 in the Go code;
after SetNX and Decr the key always exists, so the getD default is dead. -/
def rateLimiter (st : RStore) (key : String) (value : Int) : Int × RStore :=
  let st1 := rsSetNX st key value
  let st2 := (rsDecr st1 key).2
  ((alLookup st2 key).getD 0, st2)

/-- CountRateLimiter (redis.go lines 125-156), the
BoundedCountingDecrement of the spec: SetNX the initial value, read the
current value, compute newValue = current - decrement; if newValue is
negative return it without touching the store, otherwise DecrBy and
return newValue. The none branch models the error return (0) of the Go
code when the read fails; after SetNX the key always exists. -/
def countRateLimiter (st : RStore) (key : String) (value decrement : Int) :
    Int × RStore :=
  let st1 := rsSetNX st key value
  match alLookup st1 key with
  | none => (0, st1)
  | some current =>
    let newValue := current - decrement
    if newValue < 0 then (newValue, st1)
    else (newValue, rsDecrBy st1 key decrement)

/-- Sequential calls to RateLimiter on the same key, collecting returns. -/
def rateLimiterRuns (st : RStore) (key : String) (value : Int) :
    Nat → List Int × RStore
  | 0 => ([], st)
  | n + 1 =>
    let r := rateLimiter st key value
    let rest := rateLimiterRuns r.2 key value n
    (r.1 :: rest.1, rest.2)

/-- Sequential calls to CountRateLimiter on the same key, collecting returns. -/
def countRateLimiterRuns (st : RStore) (key : String) (value decrement : Int) :
    Nat → List Int × RStore
  | 0 => ([], st)
  | n + 1 =>
    let r := countRateLimiter st key value decrement
    let rest := countRateLimiterRuns r.2 key value decrement n
    (r.1 :: rest.1, rest.2)

/-- C1: CountRateLimiter ensures the key exists via SetNX, reads the
current value and returns current - decrement; when that is negative the
store is left exactly as after the SetNX (the counter keeps its current
value), otherwise the stored counter becomes current - decrement.
Concretely, with initial budget 10 and decrement 4, three sequential
calls on a fresh key return 6, 2 and -2, and the stored counter is still
2 after the third call. -/
theorem countRateLimiter_correct (st : RStore) (key : String)
    (value decrement current : Int)
    (h : alLookup (rsSetNX st key value) key = some current) :
    (countRateLimiter st key value decrement).1 = current - decrement ∧
    (current - decrement < 0 →
      (countRateLimiter st key value decrement).2 = rsSetNX st key value) ∧
    (0 ≤ current - decrement →
      alLookup (countRateLimiter st key value decrement).2 key =
        some (current - decrement)) ∧
    (countRateLimiterRuns [] "k" 10 4 3).1 = [6, 2, -2] ∧
    alLookup (countRateLimiterRuns [] "k" 10 4 3).2 "k" = some 2 := by
  refine ⟨?_, ?_, ?_, by decide, by decide⟩
  · by_cases hneg : current - decrement < 0
    · simp [countRateLimiter, h, hneg]
    · simp [countRateLimiter, h, hneg]
  · intro hneg
    simp [countRateLimiter, h, hneg]
  · intro hpos
    have hneg : ¬ current - decrement < 0 := not_lt.mpr hpos
    simp [countRateLimiter, h, hneg, rsDecrBy, alLookup_alInsert_self]

/-- Witness for countRateLimiter_correct at a concrete input. -/
theorem countRateLimiter_correct_witness :
    (countRateLimiter [] "a" 10 4).1 = 10 - 4 ∧
    (0 ≤ (10 : Int) - 4 →
      alLookup (countRateLimiter [] "a" 10 4).2 "a" = some (10 - 4)) :=
  ⟨(countRateLimiter_correct [] "a" 10 4 10 (by decide)).1,
   (countRateLimiter_correct [] "a" 10 4 10 (by decide)).2.2.1⟩

/-- C2: RateLimiter creates the key with the initial budget only if it is
absent (and never overwrites an existing value), always decrements by
one, and returns the post-decrement value read back from the store, with
no lower floor. Concretely, with initial budget 3, five sequential calls
on a fresh key return 2, 1, 0, -1, -2. -/
theorem rateLimiter_correct (st : RStore) (key : String) (value : Int) :
    (rateLimiter st key value).1 = (alLookup st key).getD value - 1 ∧
    alLookup (rateLimiter st key value).2 key =
      some ((alLookup st key).getD value - 1) ∧
    (alLookup st key = none →
      alLookup (rsSetNX st key value) key = some value) ∧
    (∀ w, alLookup st key = some w → rsSetNX st key value = st) ∧
    (rateLimiterRuns [] "k" 3 5).1 = [2, 1, 0, -1, -2] := by
  refine ⟨?_, ?_, ?_, ?_, by decide⟩
  · cases h : alLookup st key with
    | none => simp [rateLimiter, rsSetNX, rsDecr, h, alLookup_alInsert_self]
    | some w => simp [rateLimiter, rsSetNX, rsDecr, h, alLookup_alInsert_self]
  · cases h : alLookup st key with
    | none => simp [rateLimiter, rsSetNX, rsDecr, h, alLookup_alInsert_self]
    | some w => simp [rateLimiter, rsSetNX, rsDecr, h, alLookup_alInsert_self]
  · intro h
    simp [rsSetNX, h, alLookup_alInsert_self]
  · intro w h
    simp [rsSetNX, h]

/-- Witness for rateLimiter_correct at a concrete input. -/
theorem rateLimiter_correct_witness :
    (rateLimiter [] "a" 3).1 = (alLookup ([] : RStore) "a").getD 3 - 1 ∧
    (alLookup ([] : RStore) "a" = none →
      alLookup (rsSetNX [] "a" 3) "a" = some 3) :=
  ⟨(rateLimiter_correct [] "a" 3).1, (rateLimiter_correct [] "a" 3).2.2.1⟩

/-! ## statsMap (src/pkg/stats.go lines 8-49)

The Go statsMap is a map from key to a pointer to an atomically updated
uint64 cell, guarded by a read/write lock. Sequentially it is a map from
key to a count; increment creates the cell at zero when absent and then
adds one. -/

/-- Counter map: key to count. -/
abbrev StatsMap := List (String × Nat)

/-- statsMap.increment (stats.go lines 19-28): create the cell at zero if
the key is absent, then add one to it. -/
def smIncrement (sm : StatsMap) (k : String) : StatsMap :=
  match alLookup sm k with
  | some n => alInsert sm k (n + 1)
  | none => alInsert sm k (0 + 1)

/-- statsMap.get (stats.go lines 30-38): zero when the key was never
incremented, otherwise the stored count. -/
def smGet (sm : StatsMap) (k : String) : Nat :=
  (alLookup sm k).getD 0

/-- statsMap.getAll (stats.go lines 40-49): a point-in-time copy of the
whole map. -/
def smGetAll (sm : StatsMap) : List (String × Nat) := sm

theorem smGet_smIncrement_self (sm : StatsMap) (k : String) :
    smGet (smIncrement sm k) k = smGet sm k + 1 := by
  cases h : alLookup sm k with
  | none => simp [smIncrement, smGet, h, alLookup_alInsert_self]
  | some n => simp [smIncrement, smGet, h, alLookup_alInsert_self]

theorem smGet_smIncrement_ne (sm : StatsMap) (k q : String) (h : q ≠ k) :
    smGet (smIncrement sm k) q = smGet sm q := by
  cases hl : alLookup sm k with
  | none => simp [smIncrement, smGet, hl, alLookup_alInsert_ne sm k q _ h]
  | some n => simp [smIncrement, smGet, hl, alLookup_alInsert_ne sm k q _ h]

theorem smGet_le_smIncrement (sm : StatsMap) (k q : String) :
    smGet sm q ≤ smGet (smIncrement sm k) q := by
  by_cases h : q = k
  · subst h
    rw [smGet_smIncrement_self]
    exact Nat.le_succ _
  · rw [smGet_smIncrement_ne sm k q h]

theorem smLookup_isSome_smIncrement (sm : StatsMap) (k q : String)
    (h : (alLookup sm q).isSome) : (alLookup (smIncrement sm k) q).isSome := by
  by_cases hqk : q = k
  · subst hqk
    cases hl : alLookup sm q with
    | none => simp [smIncrement, hl, alLookup_alInsert_self]
    | some n => simp [smIncrement, hl, alLookup_alInsert_self]
  · cases hl : alLookup sm k with
    | none => simpa [smIncrement, hl, alLookup_alInsert_ne sm k q _ hqk] using h
    | some n => simpa [smIncrement, hl, alLookup_alInsert_ne sm k q _ hqk] using h

/-! ### The statsMap operations as a transition system -/

/-- The operations offered by statsMap. -/
inductive SMOp : Type where
  | inc (key : String)
  | read (key : String)
  | readAll

/-- Effect of one statsMap operation on the map; get and getAll read under
the lock and do not modify the map. -/
def smStep (sm : StatsMap) : SMOp → StatsMap
  | .inc k => smIncrement sm k
  | .read _ => sm
  | .readAll => sm

/-- Run a sequence of statsMap operations. -/
def smRun (sm : StatsMap) : List SMOp → StatsMap
  | [] => sm
  | op :: ops => smRun (smStep sm op) ops

/-- N sequential increments of the same key. -/
def smIncN (sm : StatsMap) (k : String) : Nat → StatsMap
  | 0 => sm
  | n + 1 => smIncN (smIncrement sm k) k n

theorem smGet_le_smStep (sm : StatsMap) (op : SMOp) (q : String) :
    smGet sm q ≤ smGet (smStep sm op) q := by
  cases op with
  | inc k => exact smGet_le_smIncrement sm k q
  | read k => exact Nat.le_refl _
  | readAll => exact Nat.le_refl _

theorem smGet_le_smRun (sm : StatsMap) (ops : List SMOp) (q : String) :
    smGet sm q ≤ smGet (smRun sm ops) q := by
  induction ops generalizing sm with
  | nil => exact Nat.le_refl _
  | cons op ops ih =>
    exact Nat.le_trans (smGet_le_smStep sm op q) (ih (smStep sm op))

theorem smLookup_isSome_smRun (sm : StatsMap) (ops : List SMOp) (q : String)
    (h : (alLookup sm q).isSome) : (alLookup (smRun sm ops) q).isSome := by
  induction ops generalizing sm with
  | nil => exact h
  | cons op ops ih =>
    refine ih (smStep sm op) ?_
    cases op with
    | inc k => exact smLookup_isSome_smIncrement sm k q h
    | read k => exact h
    | readAll => exact h

theorem smGet_smIncN (sm : StatsMap) (k : String) (n : Nat) :
    smGet (smIncN sm k n) k = smGet sm k + n := by
  induction n generalizing sm with
  | zero => simp [smIncN]
  | succ m ih =>
    rw [smIncN, ih (smIncrement sm k), smGet_smIncrement_self]
    omega

/-- C9: the counter map keeps its invariants under every operation:
counts are monotonically non-decreasing under any sequence of increment,
get and getAll operations; a key present in the map is never removed;
get returns 0 for a key never incremented; and after N sequential
increments of a key, get returns exactly N more than before, so exactly
N on a fresh map. -/
theorem statsMap_invariants (sm : StatsMap) (ops : List SMOp) (key : String)
    (n : Nat) :
    smGet sm key ≤ smGet (smRun sm ops) key ∧
    ((alLookup sm key).isSome → (alLookup (smRun sm ops) key).isSome) ∧
    (alLookup sm key = none → smGet sm key = 0) ∧
    smGet (smIncN sm key n) key = smGet sm key + n ∧
    smGet (smIncN [] key n) key = n := by
  refine ⟨smGet_le_smRun sm ops key, smLookup_isSome_smRun sm ops key, ?_, ?_, ?_⟩
  · intro h
    simp [smGet, h]
  · exact smGet_smIncN sm key n
  · rw [smGet_smIncN]
    simp [smGet, alLookup]

/-- Witness for statsMap_invariants at a concrete input. -/
theorem statsMap_invariants_witness :
    (alLookup (smRun [("a", 2)] [SMOp.inc "a"]) "a").isSome ∧
    smGet (smIncN [] "a" 3) "a" = 3 :=
  ⟨(statsMap_invariants [("a", 2)] [SMOp.inc "a"] "a" 3).2.1 (by decide),
   (statsMap_invariants [("a", 2)] [SMOp.inc "a"] "a" 3).2.2.2.2⟩

/-! ## The cache wrapper (pkg package)

The wrapper holds two statsMap instances (hits and misses), the latency
accumulator (total microseconds and hit count, both uint64, modelled as
Nat), the RecordStatistics flag, and the underlying store. The contents
of the underlying key-value store are carried as an association list so
that Set writes are observable; the outcome of each store Get call (the
data and whether the error was non-nil) is an explicit input of the
wrapper operations, because the store may fail or answer arbitrarily. -/

/-- State of the cache wrapper together with the underlying store
contents. V is the type of non-nil store values. -/
structure CacheState (V : Type) where
  store : List (String × V)
  hitStats : StatsMap
  missStats : StatsMap
  hitLatency : Nat
  hitCount : Nat
  recordStatistics : Bool

variable {V : Type}

/-- cache.hit (stats.go lines 51-55): increment the hit counter for the
key only when RecordStatistics is set. -/
def cacheHit (c : CacheState V) (key : String) : CacheState V :=
  if c.recordStatistics then { c with hitStats := smIncrement c.hitStats key }
  else c

/-- cache.miss (stats.go lines 57-61): increment the miss counter for the
key only when RecordStatistics is set. -/
def cacheMiss (c : CacheState V) (key : String) : CacheState V :=
  if c.recordStatistics then { c with missStats := smIncrement c.missStats key }
  else c

/-- cache.Get (pkg source lines 234-250). The store call returns data
(none models a nil interface value) and err (whether the error was
non-nil); lat is the elapsed time of the call in microseconds. When data
is nil AND the error is non-nil, a miss is recorded; otherwise a hit is
recorded and the latency accumulator is updated. The data and error are
returned unchanged. -/
def cacheGet (c : CacheState V) (key : String) (data : Option V) (err : Bool)
    (lat : Nat) : Option V × Bool × CacheState V :=
  if data.isNone && err then
    (data, err, cacheMiss c key)
  else
    let c1 := cacheHit c key
    (data, err,
     { c1 with hitLatency := c1.hitLatency + lat, hitCount := c1.hitCount + 1 })

/-- cache.Set (pkg source lines 252-254) delegates to the store with no
expiration; a failing store Set leaves the store unchanged and returns
the error, a successful one stores the value. -/
def cacheSet (c : CacheState V) (key : String) (v : V) (storeErr : Bool) :
    Bool × CacheState V :=
  if storeErr then (true, c)
  else (false, { c with store := alInsert c.store key v })

/-- cache.Wrap (pkg source lines 223-232): Get; when the error is nil and
the value non-nil, return the cached value; otherwise invoke the
producer, Set its result discarding any Set error, and return the
produced value. The middle component records whether the producer was
invoked. -/
def cacheWrap (c : CacheState V) (key : String) (data : Option V) (err : Bool)
    (lat : Nat) (produced : V) (setErr : Bool) : V × Bool × CacheState V :=
  let g := cacheGet c key data err lat
  match g.1, g.2.1 with
  | some v, false => (v, false, g.2.2)
  | some _, true => (produced, true, (cacheSet g.2.2 key produced setErr).2)
  | none, _ => (produced, true, (cacheSet g.2.2 key produced setErr).2)

/-- cache.KeyStatistics (pkg source lines 256-267): none models the error
return raised when both counters are zero for the key; otherwise the pair
(hits, misses) is returned. The state comes back unchanged since the
method only reads. -/
def keyStatistics (c : CacheState V) (key : String) :
    Option (Nat × Nat) × CacheState V :=
  let hitCount := smGet c.hitStats key
  let missCount := smGet c.missStats key
  if hitCount = 0 ∧ missCount = 0 then (none, c)
  else (some (hitCount, missCount), c)

/-- One entry of the map returned by cache.Statistics: the inner Go map
from the strings "hits" and "misses" to counts, a field being none when
the corresponding Go map key is absent. -/
structure StatEntry : Type where
  hits : Option Nat
  misses : Option Nat
deriving DecidableEq, Repr

/-- Setting the "hits" field of the entry for a key in the statistics
map, creating the entry when absent (the body of the first loop of
cache.Statistics). -/
def setHitsField (stats : List (String × StatEntry)) (key : String) (n : Nat) :
    List (String × StatEntry) :=
  match alLookup stats key with
  | some e => alInsert stats key { e with hits := some n }
  | none => alInsert stats key { hits := some n, misses := none }

/-- Setting the "misses" field of the entry for a key in the statistics
map, creating the entry when absent (the body of the second loop of
cache.Statistics). -/
def setMissesField (stats : List (String × StatEntry)) (key : String) (n : Nat) :
    List (String × StatEntry) :=
  match alLookup stats key with
  | some e => alInsert stats key { e with misses := some n }
  | none => alInsert stats key { hits := none, misses := some n }

/-- cache.Statistics (pkg source lines 269-288): fold the hit counters
into an empty map setting the "hits" fields, then fold the miss counters
setting the "misses" fields. The state comes back unchanged since the
method only reads. -/
def statistics (c : CacheState V) : List (String × StatEntry) × CacheState V :=
  let hits := smGetAll c.hitStats
  let misses := smGetAll c.missStats
  let stats := hits.foldl (fun st p => setHitsField st p.1 p.2) []
  ((misses.foldl (fun st p => setMissesField st p.1 p.2) stats), c)

/-- cache.AverageHitLatency (pkg source lines 291-298): 0 when the hit
count is zero, otherwise the accumulated latency divided by the hit
count; float64 division is modelled as rational division. -/
def averageHitLatency (c : CacheState V) : ℚ :=
  if c.hitCount = 0 then 0
  else (c.hitLatency : ℚ) / (c.hitCount : ℚ)

/-- NewCache (pkg source lines 300-329): fresh statsMap instances and a
zeroed latency accumulator; the store contents are whatever the external
store already holds. -/
def initCache (V : Type) (store : List (String × V)) (recordStatistics : Bool) :
    CacheState V :=
  { store := store, hitStats := [], missStats := [], hitLatency := 0,
    hitCount := 0, recordStatistics := recordStatistics }

/-- A store Get call that behaves functionally: it returns exactly the
stored value when the key is present, and a nil value with a non-nil
error (as redis does for a missing key) when absent. -/
def honestGet (c : CacheState V) (key : String) (lat : Nat) :
    Option V × Bool × CacheState V :=
  cacheGet c key (alLookup c.store key) (alLookup c.store key).isNone lat

/-- One wrapper operation, carrying the outcome of the store calls it
makes: get carries the store reply and the elapsed time, set carries the
store error, wrap carries the reply of its inner Get, the produced value
and the error of its inner Set. -/
inductive CacheOp (V : Type) : Type where
  | get (key : String) (data : Option V) (err : Bool) (lat : Nat)
  | set (key : String) (v : V) (storeErr : Bool)
  | wrap (key : String) (data : Option V) (err : Bool) (lat : Nat)
         (produced : V) (setErr : Bool)

/-- Effect of one wrapper operation on the state. -/
def cacheStep (c : CacheState V) : CacheOp V → CacheState V
  | .get k d e l => (cacheGet c k d e l).2.2
  | .set k v se => (cacheSet c k v se).2
  | .wrap k d e l p se => (cacheWrap c k d e l p se).2.2

/-- Run a sequence of wrapper operations. -/
def cacheRun (c : CacheState V) : List (CacheOp V) → CacheState V
  | [] => c
  | op :: ops => cacheRun (cacheStep c op) ops

/-! ## Claims about cache.Get, cache.Set and cache.Wrap -/

theorem cacheHit_store (c : CacheState V) (key : String) :
    (cacheHit c key).store = c.store := by
  by_cases h : c.recordStatistics <;> simp [cacheHit, h]

theorem cacheMiss_store (c : CacheState V) (key : String) :
    (cacheMiss c key).store = c.store := by
  by_cases h : c.recordStatistics <;> simp [cacheMiss, h]

theorem cacheGet_store (c : CacheState V) (key : String) (data : Option V)
    (err : Bool) (lat : Nat) : ((cacheGet c key data err lat).2.2).store = c.store := by
  by_cases h : (data.isNone && err) = true
  · simp [cacheGet, h, cacheMiss_store]
  · simp [cacheGet, h, cacheHit_store]

/-- C3 counterexample: a store Get that fails (non-nil error) while
returning non-nil data — exactly the shape the cacheDriver of the
repository produces, since it boxes the string result of the store into
a non-nil interface even on error — makes cache.Get record a HIT, not a
miss, and add to the latency accumulator. -/
theorem cacheGet_miss_counterexample :
    smGet ((cacheGet (initCache String [] true) "k" (some "") true 5).2.2).missStats "k" = 0 ∧
    smGet ((cacheGet (initCache String [] true) "k" (some "") true 5).2.2).hitStats "k" = 1 ∧
    ((cacheGet (initCache String [] true) "k" (some "") true 5).2.2).hitLatency = 5 ∧
    ((cacheGet (initCache String [] true) "k" (some "") true 5).2.2).hitCount = 1 := by
  refine ⟨?_, ?_, ?_, ?_⟩ <;> rfl

/-- C3 amended: when the store Get both returns nil data AND a non-nil
error, cache.Get (with statistics recording on and the key untouched)
records exactly one miss and zero hits for the key, and adds nothing to
the hit-latency total or the hit count. -/
theorem cacheGet_records_miss (c : CacheState V) (key : String) (lat : Nat)
    (hrec : c.recordStatistics = true)
    (hm : smGet c.missStats key = 0) (hh : smGet c.hitStats key = 0) :
    smGet ((cacheGet c key none true lat).2.2).missStats key = 1 ∧
    smGet ((cacheGet c key none true lat).2.2).hitStats key = 0 ∧
    ((cacheGet c key none true lat).2.2).hitLatency = c.hitLatency ∧
    ((cacheGet c key none true lat).2.2).hitCount = c.hitCount := by
  have hbranch : ((none : Option V).isNone && true) = true := by simp
  refine ⟨?_, ?_, ?_, ?_⟩ <;>
    simp [cacheGet, hbranch, cacheMiss, hrec, smGet_smIncrement_self, hm, hh]

/-- Witness for cacheGet_records_miss at a concrete input. -/
theorem cacheGet_records_miss_witness :
    smGet ((cacheGet (initCache String [] true) "k" none true 7).2.2).missStats "k" = 1 ∧
    smGet ((cacheGet (initCache String [] true) "k" none true 7).2.2).hitStats "k" = 0 :=
  ⟨(cacheGet_records_miss (initCache String [] true) "k" 7 rfl rfl rfl).1,
   (cacheGet_records_miss (initCache String [] true) "k" 7 rfl rfl rfl).2.1⟩

/-- C4: Set(k, v) followed by a Get(k) answered functionally by the store
(with statistics recording on and the key fresh) returns v and records
exactly one hit and zero misses for k. -/
theorem set_get_roundtrip (c : CacheState V) (key : String) (v : V) (lat : Nat)
    (hrec : c.recordStatistics = true)
    (hh : smGet c.hitStats key = 0) (hm : smGet c.missStats key = 0) :
    (honestGet (cacheSet c key v false).2 key lat).1 = some v ∧
    smGet ((honestGet (cacheSet c key v false).2 key lat).2.2).hitStats key = 1 ∧
    smGet ((honestGet (cacheSet c key v false).2 key lat).2.2).missStats key = 0 := by
  have hstore : alLookup ((cacheSet c key v false).2).store key = some v := by
    simp [cacheSet, alLookup_alInsert_self]
  refine ⟨?_, ?_, ?_⟩ <;>
    simp [honestGet, hstore, cacheGet, cacheHit, cacheSet, hrec,
      alLookup_alInsert_self, smGet_smIncrement_self, hh, hm]

/-- Witness for set_get_roundtrip at a concrete input. -/
theorem set_get_roundtrip_witness :
    (honestGet (cacheSet (initCache String [] true) "k" "v" false).2 "k" 3).1
      = some "v" ∧
    smGet ((honestGet (cacheSet (initCache String [] true) "k" "v" false).2
      "k" 3).2.2).hitStats "k" = 1 :=
  ⟨(set_get_roundtrip (initCache String [] true) "k" "v" 3 rfl rfl rfl).1,
   (set_get_roundtrip (initCache String [] true) "k" "v" 3 rfl rfl rfl).2.1⟩

/-- C5: KeyStatistics returns the error (none) exactly when both the hit
and the miss counter for the key are zero; otherwise it returns the pair
of the hit and miss counts; and it never modifies the state. -/
theorem keyStatistics_spec (c : CacheState V) (key : String) :
    ((keyStatistics c key).1 = none ↔
      smGet c.hitStats key = 0 ∧ smGet c.missStats key = 0) ∧
    (¬ (smGet c.hitStats key = 0 ∧ smGet c.missStats key = 0) →
      (keyStatistics c key).1 =
        some (smGet c.hitStats key, smGet c.missStats key)) ∧
    (keyStatistics c key).2 = c := by
  by_cases h : smGet c.hitStats key = 0 ∧ smGet c.missStats key = 0
  · refine ⟨by simp [keyStatistics, h], fun hc => absurd h hc, by simp [keyStatistics, h]⟩
  · refine ⟨?_, fun _ => by simp [keyStatistics, h], by simp [keyStatistics, h]⟩
    simp only [keyStatistics, if_neg h]
    simp [h]

/-- Witness for keyStatistics_spec at a concrete input. -/
theorem keyStatistics_spec_witness :
    (keyStatistics (initCache String [] true) "k").1 = none ∧
    (keyStatistics
      { initCache String [] true with hitStats := [("k", 2)] } "k").1
      = some (2, 0) := by
  refine ⟨?_, ?_⟩
  · exact (keyStatistics_spec (initCache String [] true) "k").1.mpr ⟨rfl, rfl⟩
  · have h := (keyStatistics_spec
      { initCache String [] true with hitStats := [("k", 2)] } "k").2.1
    simpa using h (by simp [smGet, alLookup])

/-- C7: Wrap returns the cached value without invoking the producer when
Get succeeds (nil error) with a non-nil value; in every other case
(including a Get error) it invokes the producer, writes the produced
value to the store via Set when the Set succeeds, and returns the
produced value even when the Set fails, the Set error never surfacing. -/
theorem wrap_spec (c : CacheState V) (key : String) (data : Option V)
    (err : Bool) (lat : Nat) (produced : V) (setErr : Bool) :
    (∀ v, data = some v → err = false →
      (cacheWrap c key data err lat produced setErr).1 = v ∧
      (cacheWrap c key data err lat produced setErr).2.1 = false) ∧
    ((data = none ∨ err = true) →
      (cacheWrap c key data err lat produced setErr).1 = produced ∧
      (cacheWrap c key data err lat produced setErr).2.1 = true ∧
      (setErr = false →
        alLookup ((cacheWrap c key data err lat produced setErr).2.2).store key
          = some produced) ∧
      (setErr = true →
        ((cacheWrap c key data err lat produced setErr).2.2).store = c.store)) := by
  constructor
  · rintro v rfl rfl
    simp [cacheWrap, cacheGet]
  · intro hcase
    have hget : ((cacheGet c key data err lat).2.2).store = c.store :=
      cacheGet_store c key data err lat
    rcases hcase with rfl | rfl
    · cases err with
      | false =>
        refine ⟨by simp [cacheWrap, cacheGet], by simp [cacheWrap, cacheGet], ?_, ?_⟩
        · intro hse
          subst hse
          simp [cacheWrap, cacheGet, cacheSet, cacheHit_store, alLookup_alInsert_self]
        · intro hse
          subst hse
          simp [cacheWrap, cacheGet, cacheSet, cacheHit_store]
      | true =>
        refine ⟨by simp [cacheWrap, cacheGet], by simp [cacheWrap, cacheGet], ?_, ?_⟩
        · intro hse
          subst hse
          simp [cacheWrap, cacheGet, cacheSet, cacheMiss_store, alLookup_alInsert_self]
        · intro hse
          subst hse
          simp [cacheWrap, cacheGet, cacheSet, cacheMiss_store]
    · cases data with
      | none =>
        refine ⟨by simp [cacheWrap, cacheGet], by simp [cacheWrap, cacheGet], ?_, ?_⟩
        · intro hse
          subst hse
          simp [cacheWrap, cacheGet, cacheSet, cacheMiss_store, alLookup_alInsert_self]
        · intro hse
          subst hse
          simp [cacheWrap, cacheGet, cacheSet, cacheMiss_store]
      | some v =>
        refine ⟨by simp [cacheWrap, cacheGet], by simp [cacheWrap, cacheGet], ?_, ?_⟩
        · intro hse
          subst hse
          simp [cacheWrap, cacheGet, cacheSet, cacheHit_store, alLookup_alInsert_self]
        · intro hse
          subst hse
          simp [cacheWrap, cacheGet, cacheSet, cacheHit_store]

/-- Witness for wrap_spec at a concrete input. -/
theorem wrap_spec_witness :
    (cacheWrap (initCache String [] true) "k" (some "c") false 1 "p" false).1 = "c" ∧
    (cacheWrap (initCache String [] true) "k" none true 1 "p" true).1 = "p" :=
  ⟨((wrap_spec (initCache String [] true) "k" (some "c") false 1 "p" false).1
      "c" rfl rfl).1,
   ((wrap_spec (initCache String [] true) "k" none true 1 "p" true).2
      (Or.inl rfl)).1⟩

/-! ## Claim about AverageHitLatency -/

/-- Whether a wrapper operation takes the miss path of cache.Get (and so
records no hit and leaves both latency fields untouched). -/
def opRecordsNoHit : CacheOp V → Bool
  | .get _ d e _ => d.isNone && e
  | .set _ _ _ => true
  | .wrap _ d e _ _ _ => d.isNone && e

theorem cacheStep_noHit (c : CacheState V) (op : CacheOp V)
    (h : opRecordsNoHit op = true) :
    (cacheStep c op).hitCount = c.hitCount ∧
    (cacheStep c op).hitLatency = c.hitLatency := by
  cases op with
  | get k d e l =>
    cases d with
    | some v => simp [opRecordsNoHit] at h
    | none =>
      cases e with
      | false => simp [opRecordsNoHit] at h
      | true =>
        by_cases hr : c.recordStatistics <;>
          simp [cacheStep, cacheGet, cacheMiss, hr]
  | set k v se => cases se <;> simp [cacheStep, cacheSet]
  | wrap k d e l p se =>
    cases d with
    | some v => simp [opRecordsNoHit] at h
    | none =>
      cases e with
      | false => simp [opRecordsNoHit] at h
      | true =>
        by_cases hr : c.recordStatistics <;> cases se <;>
          simp [cacheStep, cacheWrap, cacheGet, cacheMiss, cacheSet, hr]

theorem cacheRun_hitCount_noHit (c : CacheState V) (ops : List (CacheOp V))
    (hops : ∀ op ∈ ops, opRecordsNoHit op = true) :
    (cacheRun c ops).hitCount = c.hitCount := by
  induction ops generalizing c with
  | nil => rfl
  | cons op ops ih =>
    rw [cacheRun]
    rw [ih (cacheStep c op) (fun o ho => hops o (List.mem_cons_of_mem _ ho))]
    exact (cacheStep_noHit c op (hops op (List.mem_cons_self _ _))).1

/-- C6: AverageHitLatency is the accumulated hit-latency total divided by
the hit count, and is exactly 0 whenever the hit count is zero; in
particular it is 0 after any sequence of operations from the initial
state in which no hit is ever recorded. -/
theorem averageHitLatency_spec (c : CacheState V) (store : List (String × V))
    (r : Bool) (ops : List (CacheOp V))
    (hops : ∀ op ∈ ops, opRecordsNoHit op = true) :
    (c.hitCount = 0 → averageHitLatency c = 0) ∧
    (c.hitCount ≠ 0 →
      averageHitLatency c = (c.hitLatency : ℚ) / (c.hitCount : ℚ)) ∧
    averageHitLatency (cacheRun (initCache V store r) ops) = 0 := by
  refine ⟨fun h => by simp [averageHitLatency, h],
    fun h => by simp [averageHitLatency, h], ?_⟩
  have hc : (cacheRun (initCache V store r) ops).hitCount = 0 :=
    cacheRun_hitCount_noHit (initCache V store r) ops hops
  simp [averageHitLatency, hc]

/-- Witness for averageHitLatency_spec at a concrete input. -/
theorem averageHitLatency_spec_witness :
    averageHitLatency (cacheRun (initCache String [] true)
      [CacheOp.set "k" "v" false]) = 0 :=
  (averageHitLatency_spec (initCache String [] true) [] true
    [CacheOp.set "k" "v" false]
    (by intro op hop; rcases List.mem_singleton.mp hop with rfl; rfl)).2.2

/-! ## Claim about cache.Statistics -/

/-- Effect of the first loop of cache.Statistics on the entry of one key. -/
def hitsUpd (o : Option StatEntry) (n : Nat) : StatEntry :=
  match o with
  | some e => { e with hits := some n }
  | none => { hits := some n, misses := none }

/-- Effect of the second loop of cache.Statistics on the entry of one key. -/
def missesUpd (o : Option StatEntry) (n : Nat) : StatEntry :=
  match o with
  | some e => { e with misses := some n }
  | none => { hits := none, misses := some n }

theorem alLookup_setHitsField_self (st : List (String × StatEntry))
    (k : String) (n : Nat) :
    alLookup (setHitsField st k n) k = some (hitsUpd (alLookup st k) n) := by
  cases h : alLookup st k with
  | none => simp [setHitsField, h, hitsUpd, alLookup_alInsert_self]
  | some e => simp [setHitsField, h, hitsUpd, alLookup_alInsert_self]

theorem alLookup_setHitsField_ne (st : List (String × StatEntry))
    (k q : String) (n : Nat) (h : q ≠ k) :
    alLookup (setHitsField st k n) q = alLookup st q := by
  cases hl : alLookup st k with
  | none => simp [setHitsField, hl, alLookup_alInsert_ne st k q _ h]
  | some e => simp [setHitsField, hl, alLookup_alInsert_ne st k q _ h]

theorem alLookup_setMissesField_self (st : List (String × StatEntry))
    (k : String) (n : Nat) :
    alLookup (setMissesField st k n) k = some (missesUpd (alLookup st k) n) := by
  cases h : alLookup st k with
  | none => simp [setMissesField, h, missesUpd, alLookup_alInsert_self]
  | some e => simp [setMissesField, h, missesUpd, alLookup_alInsert_self]

theorem alLookup_setMissesField_ne (st : List (String × StatEntry))
    (k q : String) (n : Nat) (h : q ≠ k) :
    alLookup (setMissesField st k n) q = alLookup st q := by
  cases hl : alLookup st k with
  | none => simp [setMissesField, hl, alLookup_alInsert_ne st k q _ h]
  | some e => simp [setMissesField, hl, alLookup_alInsert_ne st k q _ h]

theorem alLookup_eq_none {α : Type} (l : List (String × α)) (k : String)
    (h : k ∉ l.map Prod.fst) : alLookup l k = none := by
  induction l with
  | nil => rfl
  | cons p t ih =>
    obtain ⟨a, b⟩ := p
    simp only [List.map_cons, List.mem_cons, not_or] at h
    obtain ⟨h1, h2⟩ := h
    simp [alLookup, Ne.symm h1, ih h2]

theorem alLookup_foldl_setHits (l : List (String × Nat))
    (st : List (String × StatEntry)) (key : String)
    (h : (l.map Prod.fst).Nodup) :
    alLookup (l.foldl (fun s p => setHitsField s p.1 p.2) st) key =
      match alLookup l key with
      | some n => some (hitsUpd (alLookup st key) n)
      | none => alLookup st key := by
  induction l generalizing st with
  | nil => simp [alLookup]
  | cons p t ih =>
    obtain ⟨a, m⟩ := p
    simp only [List.map_cons, List.nodup_cons] at h
    obtain ⟨hna, hnd⟩ := h
    rw [List.foldl_cons]
    by_cases hak : a = key
    · subst hak
      have ht : alLookup t a = none := alLookup_eq_none t a hna
      rw [ih (setHitsField st a m) hnd]
      simp [alLookup, ht, alLookup_setHitsField_self]
    · rw [ih (setHitsField st a m) hnd]
      have hq : alLookup (setHitsField st a m) key = alLookup st key :=
        alLookup_setHitsField_ne st a key m (Ne.symm hak)
      cases hl : alLookup t key with
      | none => simp [alLookup, hak, hl, hq]
      | some n => simp [alLookup, hak, hl, hq]

theorem alLookup_foldl_setMisses (l : List (String × Nat))
    (st : List (String × StatEntry)) (key : String)
    (h : (l.map Prod.fst).Nodup) :
    alLookup (l.foldl (fun s p => setMissesField s p.1 p.2) st) key =
      match alLookup l key with
      | some n => some (missesUpd (alLookup st key) n)
      | none => alLookup st key := by
  induction l generalizing st with
  | nil => simp [alLookup]
  | cons p t ih =>
    obtain ⟨a, m⟩ := p
    simp only [List.map_cons, List.nodup_cons] at h
    obtain ⟨hna, hnd⟩ := h
    rw [List.foldl_cons]
    by_cases hak : a = key
    · subst hak
      have ht : alLookup t a = none := alLookup_eq_none t a hna
      rw [ih (setMissesField st a m) hnd]
      simp [alLookup, ht, alLookup_setMissesField_self]
    · rw [ih (setMissesField st a m) hnd]
      have hq : alLookup (setMissesField st a m) key = alLookup st key :=
        alLookup_setMissesField_ne st a key m (Ne.symm hak)
      cases hl : alLookup t key with
      | none => simp [alLookup, hak, hl, hq]
      | some n => simp [alLookup, hak, hl, hq]

/-- C8: the map returned by Statistics has exactly the union of the keys
of the hit and miss counters (assuming the counter maps, which stand for
Go maps, bind each key at most once); a key present only in the hit
counter gets an entry with a "hits" field and no "misses" field, and a
key present only in the miss counter gets an entry with a "misses" field
and no "hits" field. -/
theorem statistics_spec (c : CacheState V)
    (hH : (c.hitStats.map Prod.fst).Nodup)
    (hM : (c.missStats.map Prod.fst).Nodup) :
    (∀ key, (alLookup (statistics c).1 key).isSome ↔
      ((alLookup c.hitStats key).isSome ∨ (alLookup c.missStats key).isSome)) ∧
    (∀ key n, alLookup c.hitStats key = some n →
      alLookup c.missStats key = none →
      alLookup (statistics c).1 key = some { hits := some n, misses := none }) ∧
    (∀ key n, alLookup c.missStats key = some n →
      alLookup c.hitStats key = none →
      alLookup (statistics c).1 key = some { hits := none, misses := some n }) := by
  have hmain : ∀ key, alLookup (statistics c).1 key =
      match alLookup c.missStats key with
      | some m => some (missesUpd
          (match alLookup c.hitStats key with
           | some n => some (hitsUpd none n)
           | none => none) m)
      | none =>
          match alLookup c.hitStats key with
          | some n => some (hitsUpd none n)
          | none => none := by
    intro key
    show alLookup ((smGetAll c.missStats).foldl
        (fun s p => setMissesField s p.1 p.2)
        ((smGetAll c.hitStats).foldl (fun s p => setHitsField s p.1 p.2) []))
        key = _
    rw [smGetAll, smGetAll, alLookup_foldl_setMisses _ _ _ hM,
      alLookup_foldl_setHits _ _ _ hH]
    cases alLookup c.missStats key <;> cases alLookup c.hitStats key <;> rfl
  refine ⟨?_, ?_, ?_⟩
  · intro key
    rw [hmain key]
    cases alLookup c.missStats key <;> cases alLookup c.hitStats key <;>
      simp [hitsUpd, missesUpd]
  · intro key n h1 h2
    rw [hmain key, h1, h2]
    rfl
  · intro key n h1 h2
    rw [hmain key, h1, h2]
    rfl

/-- Witness for statistics_spec at a concrete input. -/
theorem statistics_spec_witness :
    alLookup (statistics
      { initCache String [] true with hitStats := [("a", 1)] }).1 "a"
      = some { hits := some 1, misses := none } :=
  (statistics_spec { initCache String [] true with hitStats := [("a", 1)] }
    (by simp [initCache]) (by simp [initCache])).2.1 "a" 1 rfl rfl

/-! ## Claim about RecordStatistics = false -/

theorem cacheStep_noRecord (c : CacheState V) (op : CacheOp V)
    (h : c.recordStatistics = false) :
    (cacheStep c op).hitStats = c.hitStats ∧
    (cacheStep c op).missStats = c.missStats ∧
    (cacheStep c op).recordStatistics = false := by
  cases op with
  | get k d e l =>
    by_cases hb : (d.isNone && e) = true <;>
      simp [cacheStep, cacheGet, hb, cacheMiss, cacheHit, h]
  | set k v se => cases se <;> simp [cacheStep, cacheSet, h]
  | wrap k d e l p se =>
    rcases d with _ | v <;> cases e <;> cases se <;>
      simp [cacheStep, cacheWrap, cacheGet, cacheMiss, cacheHit, cacheSet, h]

theorem cacheRun_noRecord (c : CacheState V) (ops : List (CacheOp V))
    (h : c.recordStatistics = false) :
    (cacheRun c ops).hitStats = c.hitStats ∧
    (cacheRun c ops).missStats = c.missStats ∧
    (cacheRun c ops).recordStatistics = false := by
  induction ops generalizing c with
  | nil => exact ⟨rfl, rfl, h⟩
  | cons op ops ih =>
    obtain ⟨h1, h2, h3⟩ := cacheStep_noRecord c op h
    obtain ⟨g1, g2, g3⟩ := ih (cacheStep c op) h3
    exact ⟨g1.trans h1, g2.trans h2, g3⟩

/-- C10: with RecordStatistics false, no sequence of Get, Set or Wrap
operations ever changes the hit or miss counter maps, so KeyStatistics
fails for every key and Statistics returns the empty map; yet a
successful Get still accumulates the hit latency and hit count, so
AverageHitLatency can be nonzero (here 5) while Statistics is empty. -/
theorem noRecordStatistics_invariant (store : List (String × V))
    (ops : List (CacheOp V)) (key : String) :
    (cacheRun (initCache V store false) ops).hitStats = [] ∧
    (cacheRun (initCache V store false) ops).missStats = [] ∧
    (keyStatistics (cacheRun (initCache V store false) ops) key).1 = none ∧
    (statistics (cacheRun (initCache V store false) ops)).1 = [] ∧
    averageHitLatency (cacheRun (initCache String [] false)
      [CacheOp.get "k" (some "v") false 5]) = 5 ∧
    (statistics (cacheRun (initCache String [] false)
      [CacheOp.get "k" (some "v") false 5])).1 = [] := by
  obtain ⟨h1, h2, h3⟩ := cacheRun_noRecord (initCache V store false) ops rfl
  rw [show (initCache V store false).hitStats = [] from rfl] at h1
  rw [show (initCache V store false).missStats = [] from rfl] at h2
  refine ⟨h1, h2, ?_, ?_, ?_, rfl⟩
  · simp [keyStatistics, smGet, h1, h2, alLookup]
  · simp [statistics, smGetAll, h1, h2]
  · norm_num [cacheRun, cacheStep, cacheGet, cacheHit, initCache,
      averageHitLatency]

end Cacher
